import Mathlib

/-!
Verification development for the pulzz hot-update backend.

The development shallow-embeds the version-lifecycle core of the server:
the zip archive layout inspector (`src/server.js`), the version registry
(`src/lib/state.js`), the publish/switch coordinator with its file lock
(`src/server.js`, `src/lib/lock.js`), the retry wrapper of the storage
driver (`src/lib/storage.js`) and the remote object-store mirroring
(`syncToCosReal`).

JavaScript strings are modelled by `String`; every string primitive the
sources use (`split`, `includes`, `toLowerCase`, `startsWith`, ...) is
re-implemented over `String.data` (`List Char`) so that all definitions
evaluate by kernel reduction.
-/

namespace Pulzz

/-! Part: JavaScript string primitives -/

/-- Model of JavaScript `s.includes(sub)`: `sub` occurs as a contiguous
substring of `s`. -/
def jsIncludes (s sub : String) : Bool :=
  s.data.tails.any (fun t => sub.data.isPrefixOf t)

/-- Model of JavaScript `s.startsWith(p)`. -/
def jsStartsWith (s p : String) : Bool :=
  p.data.isPrefixOf s.data

/-- Model of JavaScript `s.endsWith('/')` for the single character `/`. -/
def endsWithSlash (s : String) : Bool :=
  s.data.getLast? == some '/'

/-- ASCII lower-casing of one character; model of what
`String.prototype.toLowerCase` does on the ASCII error messages the
sources match on. -/
def asciiLower (c : Char) : Char :=
  if 65 ≤ c.toNat ∧ c.toNat ≤ 90 then Char.ofNat (c.toNat + 32) else c

/-- Model of JavaScript `s.toLowerCase()` (ASCII range). -/
def jsToLower (s : String) : String :=
  String.mk (s.data.map asciiLower)

/-- Splitting a character list at every occurrence of `sep`, keeping empty
segments, exactly like JavaScript `s.split(sep)` for a one-character
separator. -/
def splitOnChar (sep : Char) (cs : List Char) : List (List Char) :=
  cs.foldr
    (fun c acc =>
      if c = sep then [] :: acc
      else
        match acc with
        | a :: as => (c :: a) :: as
        | [] => [[c]])
    [[]]

/-- Model of the JavaScript idiom `name.split('/').filter(Boolean)` used by
the archive inspector: the non-empty `/`-separated segments of a path. -/
def pathSegments (s : String) : List String :=
  ((splitOnChar '/' s.data).map String.mk).filter (fun t => t != "")

/-! Part: Archive inspector (`src/server.js`, `inspectArchiveLayout`) -/

/-- Raw zip entry as delivered by the zip library: entry name plus the
directory flag of the library. -/
structure RawZipEntry where
  entryName : String
  isDir : Bool
deriving DecidableEq, Repr

/-- Normalized entry after the mapping step of the inspector. -/
structure ZipEntry where
  name : String
  isDirectory : Bool
deriving DecidableEq, Repr

/-- Model of `normalizeZipEntryName` in `src/server.js`:
`name.replaceAll('\\', '/').replace(/^\/+/, '')` — backslashes become
forward slashes, then any run of leading slashes is stripped.  The
`replaceAll` call has a one-character pattern, so it is a character map. -/
def normalizeZipEntryName (s : String) : String :=
  String.mk ((s.data.map (fun c => if c = '\\' then '/' else c)).dropWhile (fun c => c = '/'))

/-- Mapping and filtering step of `inspectArchiveLayout`: normalize every
entry name, mark directory entries (the library flag, or a trailing slash
marker such as `100/`), and drop empty names and `__MACOSX` artifacts. -/
def toUsableEntries (raws : List RawZipEntry) : List ZipEntry :=
  (raws.map (fun e =>
    let n := normalizeZipEntryName e.entryName
    ({ name := n, isDirectory := e.isDir || endsWithSlash n } : ZipEntry))).filter
    (fun e => e.name != "" && !jsStartsWith e.name "__MACOSX/" && e.name != "__MACOSX")

/-- Insertion into the `Set` of top-level folders of the inspector: JavaScript
`Set.add` keeps first-insertion order and ignores duplicates, so the set is
modelled as a duplicate-free list in insertion order. -/
def addUnique (xs : List String) (x : String) : List String :=
  if x ∈ xs then xs else xs ++ [x]

/-- One iteration of the classification loop of the inspector over a usable
entry.  The accumulator is `(topFolders, hasRootFile)`.  A non-directory
entry always has at least one path segment (its name is non-empty and has
no trailing slash), so the empty-segment case for files is unreachable and
returns the accumulator unchanged. -/
def classifyStep (acc : List String × Bool) (e : ZipEntry) : List String × Bool :=
  let parts := pathSegments e.name
  if e.isDirectory then
    match parts with
    | [] => acc
    | p :: _ => (addUnique acc.1 p, acc.2)
  else
    match parts with
    | [_] => (acc.1, true)
    | p :: _ :: _ => (addUnique acc.1 p, acc.2)
    | [] => acc

/-- Classification of the usable entries: the distinct top-level path
segments in first-appearance order, and whether some file entry sits at the
archive root (exactly one path segment). -/
def classifyEntries (entries : List ZipEntry) : List String × Bool :=
  entries.foldl classifyStep ([], false)

/-- Verdict of the archive inspector. -/
structure LayoutVerdict where
  ok : Bool
  flatten : Bool
deriving DecidableEq, Repr

/-- Model of `inspectArchiveLayout(zip, version)` in `src/server.js`, taking
the raw entry list of the zip.  Empty usable entries reject; a single top-level
folder with no root file flattens exactly when the folder name equals the
target version; several top-level folders with no root file reject; every
other combination passes through unflattened. -/
def inspectArchiveLayout (raws : List RawZipEntry) (version : String) : LayoutVerdict :=
  let entries := toUsableEntries raws
  if entries = [] then ⟨false, false⟩
  else
    let c := classifyEntries entries
    if c.1.length = 1 ∧ c.2 = false then
      if c.1.headD "" ≠ version then ⟨false, false⟩ else ⟨true, true⟩
    else if 1 < c.1.length ∧ c.2 = false then ⟨false, false⟩
    else ⟨true, false⟩

/-! Part: Error values

JavaScript `Error` objects carrying `code`, `message` and `statusCode`
fields; an absent field is modelled by the value the sources default it to
(`String(error.code || '')`, `Number(error.statusCode || 0)`). -/

structure JsError where
  code : String
  message : String
  statusCode : Nat
deriving DecidableEq, Repr

def zipStructureMismatchError : JsError :=
  { code := "ZIP_STRUCTURE_MISMATCH", message := "zip_structure_mismatch", statusCode := 0 }

def versionNotFoundError : JsError :=
  { code := "VERSION_NOT_FOUND", message := "version_not_found", statusCode := 0 }

def lockTimeoutError : JsError :=
  { code := "LOCK_TIMEOUT", message := "lock_timeout", statusCode := 0 }

def lockBusyError : JsError :=
  { code := "LOCK_BUSY", message := "lock_busy", statusCode := 0 }

def cosConfigMissingError : JsError :=
  { code := "COS_CONFIG_MISSING", message := "cos_config_missing", statusCode := 0 }

/-- Source directory used by `extractZipToVersion` after a successful
layout inspection: the staging directory itself, or its `{version}`
subdirectory when the layout asked for flattening. -/
inductive ExtractSource where
  | stagingRoot
  | stagingSubdir (dir : String)
deriving DecidableEq, Repr

/-- Layout-decision stage of `extractZipToVersion` in `src/server.js`: a
rejected layout raises `ZIP_STRUCTURE_MISMATCH` before any extraction, an
accepted one fixes the effective source directory. -/
def extractZipPlan (raws : List RawZipEntry) (version : String) : Except JsError ExtractSource :=
  let layout := inspectArchiveLayout raws version
  if layout.ok = false then .error zipStructureMismatchError
  else .ok (if layout.flatten = true then .stagingSubdir version else .stagingRoot)

/-! Part: Version registry, record level (`src/lib/state.js`)

The registry operations `upsertVersion`, `recordUpload` and
`setCurrentVersion` only ever read and write the fields `version`,
`uploadedAt` and `publishedAt` of a version record and `action`, `version`,
`at` of a history entry, and every record they create carries exactly those
fields; documents produced by the operations are therefore modelled with
typed records.  The timestamps taken from `new Date().toISOString()` during
one operation are modelled by a single `now` argument. -/

/-- Version record `{version, uploadedAt?, publishedAt?}`. -/
structure VersionRecord where
  version : String
  uploadedAt : Option String
  publishedAt : Option String
deriving DecidableEq, Repr

/-- History entry `{action, version, at}`; the JSON field `at` is spelled
`atTime` because `at` is a Lean keyword. -/
structure HistoryEntry where
  action : String
  version : String
  atTime : String
deriving DecidableEq, Repr

/-- Registry document `{currentVersion, versions, history}`. -/
structure StateDoc where
  currentVersion : String
  versions : List VersionRecord
  history : List HistoryEntry
deriving DecidableEq, Repr

/-- The `DEFAULT_STATE` document of `src/lib/state.js`. -/
def defaultStateDoc : StateDoc :=
  { currentVersion := "", versions := [], history := [] }

/-- Mutation of the first list element satisfying `p`, modelling the
JavaScript `versions.find(...)` followed by an in-place field update. -/
def updateFirst (p : α → Bool) (f : α → α) : List α → List α
  | [] => []
  | x :: xs => if p x then f x :: xs else x :: updateFirst p f xs

/-- Model of `upsertVersion(versions, version)` in `src/lib/state.js`:
refresh `uploadedAt` of an existing record (overwrite) or append a fresh
record; returns the new list and the overwrite flag. -/
def upsertVersion (versions : List VersionRecord) (version now : String) :
    List VersionRecord × Bool :=
  if versions.any (fun v => v.version == version) then
    (updateFirst (fun v => v.version == version)
      (fun v => { v with uploadedAt := some now }) versions, true)
  else
    (versions ++ [{ version := version, uploadedAt := some now, publishedAt := none }], false)

/-- Model of `recordUpload(version)` in `src/lib/state.js` acting on the
document it read: upsert the record, append an `upload` or
`upload_overwrite` history entry, keep `currentVersion`; returns the
written document and the overwrite flag. -/
def recordUpload (state : StateDoc) (version now : String) : StateDoc × Bool :=
  let result := upsertVersion state.versions version now
  let history := state.history ++
    [{ action := if result.2 then "upload_overwrite" else "upload",
       version := version, atTime := now }]
  ({ state with versions := result.1, history := history }, result.2)

/-- Model of `setCurrentVersion(version, action)` in `src/lib/state.js`
acting on the document it read: stamp `publishedAt` on every record of that
version, or append a brand-new record carrying both timestamps; point
`currentVersion` at the version and append a history entry for `action`. -/
def setCurrentVersion (state : StateDoc) (version action now : String) : StateDoc :=
  let nextVersions :=
    if state.versions.any (fun v => v.version == version) then
      state.versions.map (fun v =>
        if v.version == version then { v with publishedAt := some now } else v)
    else
      state.versions ++
        [{ version := version, uploadedAt := some now, publishedAt := some now }]
  { currentVersion := version,
    versions := nextVersions,
    history := state.history ++ [{ action := action, version := version, atTime := now }] }

/-- Operations that write the registry, for reasoning about operation
sequences. -/
inductive RegistryOp where
  | upload (version now : String)
  | setCurrent (version action now : String)
deriving DecidableEq, Repr

/-- One registry write. -/
def applyRegistryOp (s : StateDoc) : RegistryOp → StateDoc
  | .upload v now => (recordUpload s v now).1
  | .setCurrent v a now => setCurrentVersion s v a now

/-- A sequence of registry writes. -/
def applyRegistryOps (s : StateDoc) (ops : List RegistryOp) : StateDoc :=
  ops.foldl applyRegistryOp s

/-- Some record of the document carries this version identifier. -/
def hasVersionRecord (s : StateDoc) (v : String) : Prop :=
  ∃ r ∈ s.versions, r.version = v

/-- Registry invariant: the current pointer is unset or names a known
version record. -/
def registryInvariant (s : StateDoc) : Prop :=
  s.currentVersion = "" ∨ hasVersionRecord s s.currentVersion

/-! Part: Version registry, persistence level (`src/lib/state.js`)

The persisted document is arbitrary JSON; `normalizeState` repairs missing
or ill-typed fields, `atomicWriteState` serializes to `{path}.tmp` and
renames over the live path, `readState` parses the live file and falls back
to `DEFAULT_STATE` when parsing fails. -/

/-- JSON values. -/
inductive Json where
  | null
  | bool (b : Bool)
  | num (n : Int)
  | str (s : String)
  | arr (xs : List Json)
  | obj (fields : List (String × Json))

/-- First-match association lookup among the fields of an object. -/
def jlookup : List (String × Json) → String → Option Json
  | [], _ => none
  | (k, v) :: rest, key => if key == k then some v else jlookup rest key

/-- JavaScript property access `raw?.field`: `none` models `undefined`,
including access on a non-object. -/
def jgetField : Json → String → Option Json
  | .obj fields, key => jlookup fields key
  | _, _ => none

/-- Normalized in-memory state: `currentVersion` is a string, `versions`
and `history` are arrays whose elements stay raw. -/
structure StateN where
  currentVersion : String
  versions : List Json
  history : List Json

/-- Model of `normalizeState(raw)`: `typeof raw?.currentVersion ===
"string" ...` and `Array.isArray(raw?.versions) ? ... : []`. -/
def normalizeState (raw : Json) : StateN :=
  { currentVersion :=
      match jgetField raw "currentVersion" with
      | some (.str s) => s
      | _ => ""
    versions :=
      match jgetField raw "versions" with
      | some (.arr xs) => xs
      | _ => []
    history :=
      match jgetField raw "history" with
      | some (.arr xs) => xs
      | _ => [] }

/-- Serialization shape of a normalized state: `JSON.stringify` of the
object literal built by `normalizeState`, with its fixed field order. -/
def stateToJson (s : StateN) : Json :=
  .obj [("currentVersion", .str s.currentVersion),
        ("versions", .arr s.versions),
        ("history", .arr s.history)]

/-- The `DEFAULT_STATE` object as JSON. -/
def defaultStateJson : Json :=
  .obj [("currentVersion", .str ""), ("versions", .arr []), ("history", .arr [])]

/-- Content of the persisted state file: well-formed JSON text, or text
that `JSON.parse` rejects. -/
inductive FileData where
  | jsonText (j : Json)
  | garbage

/-- The two filesystem locations the registry persistence touches: the live
document path and its `.tmp` sibling. -/
structure StateFS where
  live : Option FileData
  temp : Option FileData

/-- Writing the serialized document to the temporary path. -/
def fsWriteTemp (fs : StateFS) (d : FileData) : StateFS :=
  { fs with temp := some d }

/-- Renaming the temporary path over the live path. -/
def fsRenameTempToLive (fs : StateFS) : StateFS :=
  { live := fs.temp, temp := none }

/-- Serialized content `JSON.stringify(normalizeState(state), null, 2)`. -/
def serializeState (raw : Json) : FileData :=
  .jsonText (stateToJson (normalizeState raw))

/-- Model of `atomicWriteState(state)`: serialize the normalized document
to the temporary location, then rename it over the live location. -/
def atomicWriteState (fs : StateFS) (raw : Json) : StateFS :=
  fsRenameTempToLive (fsWriteTemp fs (serializeState raw))

/-- Model of `ensureStateFile()`: create the live document with
`DEFAULT_STATE` when it is absent. -/
def ensureStateFile (fs : StateFS) : StateFS :=
  match fs.live with
  | some _ => fs
  | none => atomicWriteState fs defaultStateJson

/-- Parsing the live file content: `JSON.parse` of unparsable text is
caught and replaced by `DEFAULT_STATE`.  The `none` case cannot occur after
`ensureStateFile` and also yields the default. -/
def parseStateFile : Option FileData → Json
  | some (.jsonText j) => j
  | some .garbage => defaultStateJson
  | none => defaultStateJson

/-- Model of `readState()`: ensure the file exists, read and parse it,
normalize the result. -/
def readState (fs : StateFS) : StateN :=
  normalizeState (parseStateFile (ensureStateFile fs).live)

/-- The empty default document in normalized form. -/
def defaultStateN : StateN :=
  { currentVersion := "", versions := [], history := [] }

/-- Field-order-independent comparison of two JSON documents: every field
name resolves to the same value. -/
def docEquiv (a b : Json) : Prop :=
  ∀ k, jgetField a k = jgetField b k

/-- A well-formed registry document: a string `currentVersion`, array
`versions` and array `history`, and no other fields. -/
def wellFormedDoc (d : Json) : Prop :=
  (∃ c, jgetField d "currentVersion" = some (.str c)) ∧
  (∃ xs, jgetField d "versions" = some (.arr xs)) ∧
  (∃ xs, jgetField d "history" = some (.arr xs)) ∧
  (∀ k, k ≠ "currentVersion" → k ≠ "versions" → k ≠ "history" → jgetField d k = none)

/-! Part: Retry wrapper (`src/lib/storage.js`) -/

/-- Model of `isRetryableCosError(error)`: 5xx status, transient network
error codes, known transient provider codes, or a transient substring in
the lower-cased message. -/
def isRetryableCosError (e : JsError) : Bool :=
  let message := jsToLower e.message
  if 500 ≤ e.statusCode then true
  else if (["ETIMEDOUT", "ECONNRESET", "EAI_AGAIN", "ESOCKETTIMEDOUT"] : List String).contains e.code then true
  else if (["RequestTimeout", "InternalError", "ServiceUnavailable", "SlowDown", "NetworkingError"] : List String).contains e.code then true
  else jsIncludes message "timeout" || jsIncludes message "timed out" || jsIncludes message "socket hang up"

/-- Observable outcome of one `withRetry` run: the returned or rethrown
result, the number of task invocations, and the backoff sleeps (in
milliseconds) in order. -/
structure RetryTrace (A : Type) where
  result : Except JsError A
  attempts : Nat
  sleeps : List Nat

/-- Loop body of `withRetry` from attempt index `i`, where `remaining`
counts the loop iterations still allowed after this one (`remaining =
retries - i`, so the throw condition `i >= retries` is `remaining = 0`).
The task is modelled by the outcome of each invocation index. -/
def withRetryGo (task : Nat → Except JsError A) (baseDelay : Nat) :
    (i remaining : Nat) → RetryTrace A
  | i, 0 =>
    match task i with
    | .ok a => ⟨.ok a, 1, []⟩
    | .error e => ⟨.error e, 1, []⟩
  | i, remaining + 1 =>
    match task i with
    | .ok a => ⟨.ok a, 1, []⟩
    | .error e =>
      if isRetryableCosError e then
        let rest := withRetryGo task baseDelay (i + 1) remaining
        ⟨rest.result, rest.attempts + 1, baseDelay * (i + 1) :: rest.sleeps⟩
      else ⟨.error e, 1, []⟩

/-- Model of `withRetry(task, {retries, baseDelayMs})`: run the task up to
`retries + 1` times, rethrow non-retryable errors immediately, sleep
`baseDelay * (i + 1)` after failed attempt `i`. -/
def withRetry (task : Nat → Except JsError A) (baseDelay retries : Nat) : RetryTrace A :=
  withRetryGo task baseDelay 0 retries

/-! Part: File lock (`src/lib/lock.js`) and coordinator (`src/server.js`) -/

/-- Result of one exclusive-create attempt on the sentinel lock file:
success, `EEXIST` conflict, or another filesystem error. -/
inductive LockAttempt where
  | ok
  | eexist
  | fail (e : JsError)
deriving DecidableEq, Repr

/-- Terminal outcome of the acquisition loop. -/
inductive AcquireOutcome where
  | acquired
  | timedOut
  | errored (e : JsError)
deriving DecidableEq, Repr

/-- Model of the acquisition loop of `withFileLock`: up to `fuel`
attempts (attempt indices from `i`); an `EEXIST` conflict sleeps
`delay` milliseconds and retries, any other error propagates, and
exhaustion times out.  Returns the outcome and the sleeps performed. -/
def acquireLoop (tryOpen : Nat → LockAttempt) (delay : Nat) :
    (i fuel : Nat) → AcquireOutcome × List Nat
  | _, 0 => (.timedOut, [])
  | i, fuel + 1 =>
    match tryOpen i with
    | .ok => (.acquired, [])
    | .fail e => (.errored e, [])
    | .eexist =>
      let rest := acquireLoop tryOpen delay (i + 1) fuel
      (rest.1, delay :: rest.2)

/-- Model of `withFileLock(lockPath, fn)` with the default options
`retries = 60`, `retryDelayMs = 100`: run the body only when the sentinel
was exclusively created, translate exhaustion into a `LOCK_TIMEOUT` error.
The unconditional release in the `finally` block touches only the sentinel
file and is not part of the observable result. -/
def withFileLock (tryOpen : Nat → LockAttempt) (retries delay : Nat)
    (body : Except JsError A) : Except JsError A :=
  match (acquireLoop tryOpen delay 0 retries).1 with
  | .acquired => body
  | .timedOut => .error lockTimeoutError
  | .errored e => .error e

/-- Model of `applyVersion(version, action)` in `src/server.js`: under the
publish lock, re-check that the version is discoverable in storage
(`VERSION_NOT_FOUND` otherwise), short-circuit when it is already current,
otherwise write through `setCurrentVersion`; a lock timeout is translated
to `LOCK_BUSY`.  `available` is the storage listing obtained inside the
lock and `state` the document `readState` returns there; the result pairs
the `alreadyCurrent` flag with the registry document after the call. -/
def applyVersion (tryOpen : Nat → LockAttempt) (available : List String)
    (state : StateDoc) (version action now : String) :
    Except JsError (Bool × StateDoc) :=
  let inner : Except JsError (Bool × StateDoc) :=
    if available.contains version then
      if state.currentVersion == version then .ok (true, state)
      else .ok (false, setCurrentVersion state version action now)
    else .error versionNotFoundError
  match withFileLock tryOpen 60 100 inner with
  | .error e => .error (if e.code == "LOCK_TIMEOUT" then lockBusyError else e)
  | .ok r => .ok r

/-! Part: Remote object-store sync (`syncToCosReal`, `src/unnamed/part_001`)

The remote driver mirrors the file tree of a version to the bucket under a
primary prefix `{assetsRoot}/{platform}/{version}/` and a legacy prefix
`{legacyRoot}/{version}/`.  The two prefix roots come from path helpers
(`getAssetsPrefixRoot`, `getLegacyHotupdatePrefixRoot`) and are passed here
as arguments.  The bucket is modelled by its key list; the paginated
`getBucket` scan is modelled by its result, the keys below the prefix.
The produced value is the ordered list of mutating bucket calls. -/

/-- COS configuration from the environment. -/
structure CosConfig where
  secretId : String
  secretKey : String
  bucket : String
  region : String
deriving DecidableEq, Repr

/-- All four settings are present (the check guarding
`COS_CONFIG_MISSING`). -/
def cosConfigOk (c : CosConfig) : Bool :=
  c.secretId != "" && c.secretKey != "" && c.bucket != "" && c.region != ""

/-- Mutating bucket calls issued by the sync, in order. -/
inductive CosOp where
  | deleteBatch (keys : List String)
  | putObject (key : String)
deriving DecidableEq, Repr

/-- The two destination prefixes of `syncToCosReal`:
`${prefixRoot}/${platform}/${version}/` and
`${legacyPrefixRoot}/${version}/`. -/
def syncVersionPrefixes (assetsRoot legacyRoot platform version : String) : List String :=
  [assetsRoot ++ "/" ++ platform ++ "/" ++ version ++ "/",
   legacyRoot ++ "/" ++ version ++ "/"]

/-- Result of `listAllKeysBelow`: every bucket key under the prefix. -/
def listAllKeysBelow (bucket : List String) (pfx : String) : List String :=
  bucket.filter (fun k => jsStartsWith k pfx)

/-- Slicing of `deleteKeys`: `keys.slice(i, i + 1000)` for `i = 0, 1000,
2000, ...`; `fuel` bounds the recursion by the number of keys. -/
def chunkKeysGo : (fuel : Nat) → List String → List (List String)
  | _, [] => []
  | 0, ks => [ks]
  | fuel + 1, ks => ks.take 1000 :: chunkKeysGo fuel (ks.drop 1000)

/-- The delete batches of `deleteKeys(keys)`, at most 1000 keys each. -/
def chunkKeys (ks : List String) : List (List String) :=
  chunkKeysGo ks.length ks

/-- Stale-cleanup phase: for each destination prefix, list the existing
keys below it and delete them in batches. -/
def syncDeleteOps (bucket : List String) (pfxs : List String) : List CosOp :=
  (pfxs.map (fun p => (chunkKeys (listAllKeysBelow bucket p)).map CosOp.deleteBatch)).flatten

/-- Upload phase: for each destination prefix, put every file of the
source tree under the prefix, preserving its relative path (`files` holds
the forward-slash relative paths `normalizeRelPath` produces). -/
def syncPutOps (files : List String) (pfxs : List String) : List CosOp :=
  (pfxs.map (fun p => files.map (fun rel => CosOp.putObject (p ++ rel)))).flatten

/-- Model of `syncToCosReal({platform, version, sourceDir})` from
`src/unnamed/part_001`: fail with `COS_CONFIG_MISSING` when credentials,
bucket or region are absent; otherwise issue all stale-key delete batches
for both destination prefixes, then all uploads. -/
def syncToCosReal (cfg : CosConfig) (assetsRoot legacyRoot platform version : String)
    (bucket files : List String) : Except JsError (List CosOp) :=
  if cosConfigOk cfg then
    let pfxs := syncVersionPrefixes assetsRoot legacyRoot platform version
    .ok (syncDeleteOps bucket pfxs ++ syncPutOps files pfxs)
  else .error cosConfigMissingError

/-! Part: claim theorems -/

/-- Helper: classifying no entries yields no top folders and no root file. -/
theorem classifyEntries_nil : classifyEntries [] = ([], false) := rfl

/-- Claim C1, counterexample: an archive with the two usable file entries
`a/f.txt` and `b/g.txt` has two distinct top-level segments and no root
file, yet `inspectArchiveLayout` rejects it (`ok = false`) instead of
accepting it with `flatten = false` as the claim states. -/
theorem claim_C1_counterexample :
    (classifyEntries (toUsableEntries
        [⟨"a/f.txt", false⟩, ⟨"b/g.txt", false⟩])).1.length = 2 ∧
    (classifyEntries (toUsableEntries
        [⟨"a/f.txt", false⟩, ⟨"b/g.txt", false⟩])).2 = false ∧
    inspectArchiveLayout [⟨"a/f.txt", false⟩, ⟨"b/g.txt", false⟩] "100" ≠
      { ok := true, flatten := false } ∧
    inspectArchiveLayout [⟨"a/f.txt", false⟩, ⟨"b/g.txt", false⟩] "100" =
      { ok := false, flatten := false } := by
  refine ⟨by decide, by decide, by decide, by decide⟩

/-- Claim C1 (amended): for every archive entry list whose usable entries
have two or more distinct top-level path segments and no root file,
`inspectArchiveLayout` returns `{ok := false, flatten := false}` — it
rejects such archives — for every target version. -/
theorem claim_C1_amended (raws : List RawZipEntry) (version : String)
    (hlen : 1 < (classifyEntries (toUsableEntries raws)).1.length)
    (hroot : (classifyEntries (toUsableEntries raws)).2 = false) :
    inspectArchiveLayout raws version = { ok := false, flatten := false } := by
  have hne : toUsableEntries raws ≠ [] := by
    intro h
    rw [h, classifyEntries_nil] at hlen
    exact absurd hlen (by decide)
  unfold inspectArchiveLayout
  rw [if_neg hne, if_neg, if_pos ⟨hlen, hroot⟩]
  rintro ⟨h1, -⟩
  omega

/-- Claim C1 (amended), witness at a three-folder archive. -/
theorem claim_C1_amended_witness :
    1 < (classifyEntries (toUsableEntries
        [⟨"x/1.txt", false⟩, ⟨"y/2.txt", false⟩, ⟨"z/3.txt", false⟩])).1.length ∧
    (classifyEntries (toUsableEntries
        [⟨"x/1.txt", false⟩, ⟨"y/2.txt", false⟩, ⟨"z/3.txt", false⟩])).2 = false ∧
    inspectArchiveLayout [⟨"x/1.txt", false⟩, ⟨"y/2.txt", false⟩, ⟨"z/3.txt", false⟩] "7" =
      { ok := false, flatten := false } :=
  ⟨by decide, by decide, claim_C1_amended _ "7" (by decide) (by decide)⟩

/-- Claim C7: when the usable entries have exactly one distinct top-level
segment and no root file, the inspector accepts with `flatten = true`
exactly when that folder name equals the target version; otherwise it
rejects, and the extraction stage fails with `ZIP_STRUCTURE_MISMATCH`. -/
theorem claim_C7 (raws : List RawZipEntry) (version : String)
    (hlen : (classifyEntries (toUsableEntries raws)).1.length = 1)
    (hroot : (classifyEntries (toUsableEntries raws)).2 = false) :
    (inspectArchiveLayout raws version = { ok := true, flatten := true } ↔
      (classifyEntries (toUsableEntries raws)).1.headD "" = version) ∧
    ((classifyEntries (toUsableEntries raws)).1.headD "" ≠ version →
      inspectArchiveLayout raws version = { ok := false, flatten := false } ∧
      extractZipPlan raws version = .error zipStructureMismatchError) := by
  have hne : toUsableEntries raws ≠ [] := by
    intro h
    rw [h, classifyEntries_nil] at hlen
    exact absurd hlen (by decide)
  have hinspect : inspectArchiveLayout raws version =
      if (classifyEntries (toUsableEntries raws)).1.headD "" ≠ version then
        ({ ok := false, flatten := false } : LayoutVerdict)
      else { ok := true, flatten := true } := by
    unfold inspectArchiveLayout
    rw [if_neg hne, if_pos ⟨hlen, hroot⟩]
  constructor
  · constructor
    · intro hacc
      by_contra hv
      rw [hinspect, if_pos hv] at hacc
      exact absurd hacc (by decide)
    · intro hv
      rw [hinspect, if_neg (by simpa using hv)]
  · intro hv
    have hrej : inspectArchiveLayout raws version = { ok := false, flatten := false } := by
      rw [hinspect, if_pos hv]
    refine ⟨hrej, ?_⟩
    unfold extractZipPlan
    rw [hrej]
    rfl

/-- Claim C7, witness: the single folder `99` uploaded as version `100` is
rejected and fails extraction, while the same archive under version `99`
flattens. -/
theorem claim_C7_witness :
    ((classifyEntries (toUsableEntries [⟨"99/config.json", false⟩])).1.length = 1 ∧
     (classifyEntries (toUsableEntries [⟨"99/config.json", false⟩])).2 = false) ∧
    (inspectArchiveLayout [⟨"99/config.json", false⟩] "100" = { ok := false, flatten := false } ∧
     extractZipPlan [⟨"99/config.json", false⟩] "100" = .error zipStructureMismatchError) ∧
    inspectArchiveLayout [⟨"99/config.json", false⟩] "99" = { ok := true, flatten := true } :=
  ⟨⟨by decide, by decide⟩,
   (claim_C7 _ "100" (by decide) (by decide)).2 (by decide),
   (claim_C7 _ "99" (by decide) (by decide)).1.mpr (by decide)⟩

/-- Claim C3: when the lock is available, the target version is
discoverable in storage and already equals `currentVersion`,
`applyVersion` reports `alreadyCurrent = true` and returns the registry
document unchanged — no history entry, no timestamp update. -/
theorem claim_C3 (tryOpen : Nat → LockAttempt) (available : List String)
    (state : StateDoc) (version action now : String)
    (hlock : tryOpen 0 = .ok)
    (havail : available.contains version = true)
    (hcur : state.currentVersion = version) :
    applyVersion tryOpen available state version action now = .ok (true, state) := by
  have hmem : version ∈ available := by simpa using havail
  unfold applyVersion withFileLock
  rw [show (60 : Nat) = 59 + 1 from rfl]
  simp [acquireLoop, hlock, hmem, hcur]

/-- Claim C3, witness at a registry whose current version is `100`. -/
theorem claim_C3_witness :
    (fun _ : Nat => LockAttempt.ok) 0 = LockAttempt.ok ∧
    (["100"] : List String).contains "100" = true ∧
    (({ currentVersion := "100",
        versions := [{ version := "100", uploadedAt := some "t1", publishedAt := some "t2" }],
        history := [] } : StateDoc)).currentVersion = "100" ∧
    applyVersion (fun _ => LockAttempt.ok) ["100"]
      { currentVersion := "100",
        versions := [{ version := "100", uploadedAt := some "t1", publishedAt := some "t2" }],
        history := [] } "100" "publish" "t3" =
      .ok (true,
        { currentVersion := "100",
          versions := [{ version := "100", uploadedAt := some "t1", publishedAt := some "t2" }],
          history := [] }) :=
  ⟨rfl, by decide, rfl, claim_C3 _ _ _ _ _ _ rfl (by decide) rfl⟩

/-- Claim C10: `setCurrentVersion` on a version with no record appends a
brand-new record whose `uploadedAt` and `publishedAt` both carry the
current time, besides pointing `currentVersion` at it and appending the
history entry. -/
theorem claim_C10 (state : StateDoc) (version action now : String)
    (habs : (state.versions.any fun v => v.version == version) = false) :
    setCurrentVersion state version action now =
      { currentVersion := version,
        versions := state.versions ++
          [{ version := version, uploadedAt := some now, publishedAt := some now }],
        history := state.history ++ [{ action := action, version := version, atTime := now }] } := by
  unfold setCurrentVersion
  rw [if_neg (by simp [habs])]

/-- Claim C10, witness: publishing the unregistered version `2`. -/
theorem claim_C10_witness :
    ((([{ version := "1", uploadedAt := some "t0", publishedAt := none }] :
        List VersionRecord).any fun v => v.version == "2") = false) ∧
    setCurrentVersion
      { currentVersion := "",
        versions := [{ version := "1", uploadedAt := some "t0", publishedAt := none }],
        history := [] } "2" "switch" "t1" =
      { currentVersion := "2",
        versions := [{ version := "1", uploadedAt := some "t0", publishedAt := none },
                     { version := "2", uploadedAt := some "t1", publishedAt := some "t1" }],
        history := [{ action := "switch", version := "2", atTime := "t1" }] } :=
  ⟨by decide, claim_C10 _ _ _ _ (by decide)⟩

/-- Claim C5: a missing or unparsable persisted document never fails the
read; `readState` returns the empty default document. -/
theorem claim_C5 (fs : StateFS) (h : fs.live = none ∨ fs.live = some .garbage) :
    readState fs = defaultStateN := by
  rcases h with h | h
  · have hens : ensureStateFile fs = atomicWriteState fs defaultStateJson := by
      unfold ensureStateFile
      rw [h]
    unfold readState
    rw [hens]
    rfl
  · have hens : ensureStateFile fs = fs := by
      unfold ensureStateFile
      rw [h]
    unfold readState
    rw [hens, h]
    rfl

/-- Claim C5, witness: an absent file and a corrupt file both read as the
default document. -/
theorem claim_C5_witness :
    ((⟨none, none⟩ : StateFS).live = none ∧
      readState ⟨none, none⟩ = defaultStateN) ∧
    ((⟨some .garbage, none⟩ : StateFS).live = some .garbage ∧
      readState ⟨some .garbage, none⟩ = defaultStateN) :=
  ⟨⟨rfl, claim_C5 ⟨none, none⟩ (Or.inl rfl)⟩,
   ⟨rfl, claim_C5 ⟨some .garbage, none⟩ (Or.inr rfl)⟩⟩

/-- Helper: normalizing the serialization of a normalized state is the
identity. -/
theorem normalizeState_stateToJson (s : StateN) : normalizeState (stateToJson s) = s := rfl

/-- Claim C4: writing a well-formed document atomically and reading it back
yields an equal document under field-order-independent comparison, and the
write is exactly a serialize-to-temporary followed by a rename over the
live location. -/
theorem claim_C4 (fs : StateFS) (d : Json) (hwf : wellFormedDoc d) :
    atomicWriteState fs d = fsRenameTempToLive (fsWriteTemp fs (serializeState d)) ∧
    (atomicWriteState fs d).live = some (serializeState d) ∧
    (atomicWriteState fs d).temp = none ∧
    docEquiv (stateToJson (readState (atomicWriteState fs d))) d := by
  obtain ⟨⟨c, hc⟩, ⟨vs, hv⟩, ⟨hs, hh⟩, hother⟩ := hwf
  refine ⟨rfl, rfl, rfl, ?_⟩
  have hread : readState (atomicWriteState fs d) = normalizeState d :=
    normalizeState_stateToJson (normalizeState d)
  have hn : normalizeState d = ⟨c, vs, hs⟩ := by
    unfold normalizeState
    rw [hc, hv, hh]
  intro k
  rw [hread, hn]
  by_cases h1 : k = "currentVersion"
  · subst h1
    simpa [stateToJson, jgetField, jlookup] using hc.symm
  by_cases h2 : k = "versions"
  · subst h2
    simpa [stateToJson, jgetField, jlookup] using hv.symm
  by_cases h3 : k = "history"
  · subst h3
    simpa [stateToJson, jgetField, jlookup] using hh.symm
  · rw [hother k h1 h2 h3]
    simp [stateToJson, jgetField, jlookup, beq_iff_eq, h1, h2, h3]

/-- Claim C4, witness at a permuted three-field document over an empty
filesystem. -/
theorem claim_C4_witness :
    wellFormedDoc (.obj [("history", .arr []), ("currentVersion", .str "7"),
      ("versions", .arr [.str "x"])]) ∧
    docEquiv
      (stateToJson (readState (atomicWriteState ⟨none, none⟩
        (.obj [("history", .arr []), ("currentVersion", .str "7"),
          ("versions", .arr [.str "x"])]))))
      (.obj [("history", .arr []), ("currentVersion", .str "7"),
        ("versions", .arr [.str "x"])]) := by
  have hwf : wellFormedDoc (.obj [("history", .arr []), ("currentVersion", .str "7"),
      ("versions", .arr [.str "x"])]) := by
    refine ⟨⟨"7", rfl⟩, ⟨[.str "x"], rfl⟩, ⟨[], rfl⟩, ?_⟩
    intro k h1 h2 h3
    simp [jgetField, jlookup, beq_iff_eq, h1, h2, h3]
  exact ⟨hwf, (claim_C4 ⟨none, none⟩ _ hwf).2.2.2⟩

/-- Helper: updating the first match with a version-preserving function
keeps, for every member, a member with the same version identifier. -/
theorem version_mem_updateFirst (p : VersionRecord → Bool) (f : VersionRecord → VersionRecord)
    (hf : ∀ v, (f v).version = v.version) (r : VersionRecord) :
    ∀ xs : List VersionRecord, r ∈ xs →
      ∃ r' ∈ updateFirst p f xs, r'.version = r.version := by
  intro xs
  induction xs with
  | nil => intro hr; cases hr
  | cons x xs ih =>
    intro hr
    unfold updateFirst
    by_cases hp : p x = true
    · rw [if_pos hp]
      rcases List.mem_cons.mp hr with h | h
      · exact ⟨f x, List.mem_cons_self _ _, by rw [hf, h]⟩
      · exact ⟨r, List.mem_cons_of_mem _ h, rfl⟩
    · rw [if_neg hp]
      rcases List.mem_cons.mp hr with h | h
      · exact ⟨x, List.mem_cons_self _ _, by rw [h]⟩
      · obtain ⟨r', hr', hv⟩ := ih h
        exact ⟨r', List.mem_cons_of_mem _ hr', hv⟩

/-- Helper: after an upsert, every version identifier present before is
still present. -/
theorem upsertVersion_keeps (r : VersionRecord) (xs : List VersionRecord)
    (hr : r ∈ xs) (version now : String) :
    ∃ r' ∈ (upsertVersion xs version now).1, r'.version = r.version := by
  unfold upsertVersion
  by_cases hmem : (xs.any fun v => v.version == version) = true
  · rw [if_pos hmem]
    exact version_mem_updateFirst (fun v => v.version == version)
      (fun v => { v with uploadedAt := some now }) (fun v => rfl) r xs hr
  · rw [if_neg hmem]
    exact ⟨r, List.mem_append_left _ hr, rfl⟩

/-- Helper: after `setCurrentVersion`, the target version has a record. -/
theorem setCurrentVersion_hasVersionRecord (s : StateDoc) (version action now : String) :
    hasVersionRecord (setCurrentVersion s version action now) version := by
  unfold setCurrentVersion hasVersionRecord
  by_cases hmem : (s.versions.any fun v => v.version == version) = true
  · rw [if_pos hmem]
    obtain ⟨r, hr, hrv⟩ := List.any_eq_true.mp hmem
    have hrv' : r.version = version := by simpa using hrv
    refine ⟨(fun v => if v.version == version then { v with publishedAt := some now } else v) r,
      List.mem_map_of_mem _ hr, ?_⟩
    simp [hrv']
  · rw [if_neg hmem]
    exact ⟨⟨version, some now, some now⟩,
      List.mem_append_right _ (List.mem_singleton_self _), rfl⟩

/-- Helper: each registry write preserves the current-pointer invariant. -/
theorem registryInvariant_applyRegistryOp (s : StateDoc) (op : RegistryOp)
    (h : registryInvariant s) : registryInvariant (applyRegistryOp s op) := by
  cases op with
  | upload v now =>
    rcases h with h | ⟨r, hr, hrv⟩
    · exact Or.inl h
    · right
      obtain ⟨r', hr', hv⟩ := upsertVersion_keeps r s.versions hr v now
      exact ⟨r', hr', by rw [hv, hrv]; rfl⟩
  | setCurrent v a now =>
    exact Or.inr (setCurrentVersion_hasVersionRecord s v a now)

/-- Claim C9: starting from the default empty document, after every
sequence of `recordUpload` and `setCurrentVersion` writes the registry
field `currentVersion` is the empty string or carried by some version record. -/
theorem claim_C9 (ops : List RegistryOp) :
    registryInvariant (applyRegistryOps defaultStateDoc ops) := by
  suffices h : ∀ s, registryInvariant s → registryInvariant (applyRegistryOps s ops) from
    h defaultStateDoc (Or.inl rfl)
  induction ops with
  | nil => exact fun s hs => hs
  | cons op ops ih =>
    intro s hs
    exact ih _ (registryInvariant_applyRegistryOp s op hs)

/-- Helper: when the first `N` invocations from index `i` fail with
retryable errors and invocation `i + N` succeeds, the retry loop (with at
least `N` iterations left) returns the success after `N + 1` invocations,
sleeping `baseDelay * (attempt index + 1)` after each failure. -/
theorem withRetryGo_retryable_run {A : Type} (task : Nat → Except JsError A)
    (baseDelay : Nat) (a : A) :
    ∀ (N i remaining : Nat), N ≤ remaining →
      (∀ j, j < N → ∃ e, task (i + j) = .error e ∧ isRetryableCosError e = true) →
      task (i + N) = .ok a →
      withRetryGo task baseDelay i remaining =
        ⟨.ok a, N + 1, (List.range N).map (fun j => baseDelay * (i + j + 1))⟩ := by
  intro N
  induction N with
  | zero =>
    intro i remaining _ _ hok
    have hok' : task i = .ok a := hok
    cases remaining <;> simp [withRetryGo, hok']
  | succ N ih =>
    intro i remaining hN hfail hok
    obtain ⟨e, he, hre⟩ := hfail 0 (Nat.succ_pos N)
    have he' : task i = .error e := he
    cases remaining with
    | zero => omega
    | succ rem =>
      have hN' : N ≤ rem := Nat.le_of_succ_le_succ hN
      have hfail' : ∀ j, j < N → ∃ e, task (i + 1 + j) = .error e ∧
          isRetryableCosError e = true := by
        intro j hj
        have := hfail (j + 1) (Nat.succ_lt_succ hj)
        rwa [show i + (j + 1) = i + 1 + j by omega] at this
      have hok' : task (i + 1 + N) = .ok a := by
        rwa [show i + (N + 1) = i + 1 + N by omega] at hok
      have hrest := ih (i + 1) rem hN' hfail' hok'
      simp only [withRetryGo, he', hre, if_true, hrest]
      refine congrArg (RetryTrace.mk (.ok a) (N + 1 + 1)) ?_
      rw [List.range_succ_eq_map, List.map_cons, List.map_map]
      refine congrArg₂ List.cons (by ring) ?_
      refine List.map_congr_left ?_
      intro j _
      simp only [Function.comp_apply, Nat.succ_eq_add_one]
      ring

/-- Claim C6: a task failing with retryable errors on its first `N`
invocations (for `N` within the retry bound) and succeeding on invocation
`N + 1` makes `withRetry` return that success after exactly `N + 1`
invocations with backoff sleeps `baseDelay * attemptNumber`; a task failing
with a non-retryable error makes `withRetry` rethrow it after exactly one
invocation with no sleep. -/
theorem claim_C6 :
    (∀ (A : Type) (task : Nat → Except JsError A) (baseDelay retries N : Nat) (a : A),
       N ≤ retries →
       (∀ j, j < N → ∃ e, task j = .error e ∧ isRetryableCosError e = true) →
       task N = .ok a →
       withRetry task baseDelay retries =
         ⟨.ok a, N + 1, (List.range N).map (fun j => baseDelay * (j + 1))⟩) ∧
    (∀ (A : Type) (task : Nat → Except JsError A) (baseDelay retries : Nat) (e : JsError),
       task 0 = .error e → isRetryableCosError e = false →
       withRetry task baseDelay retries = ⟨.error e, 1, []⟩) := by
  constructor
  · intro A task baseDelay retries N a hN hfail hok
    have := withRetryGo_retryable_run task baseDelay a N 0 retries hN
      (fun j hj => by simpa using hfail j hj) (by simpa using hok)
    simpa [withRetry] using this
  · intro A task baseDelay retries e h0 hnr
    cases retries <;> simp [withRetry, withRetryGo, h0, hnr]

/-- Claim C6, witness: two transient timeouts then success takes three
invocations with sleeps 250 and 500; a non-transient denial fails on the
first invocation with no sleep. -/
theorem claim_C6_witness :
    withRetry (fun i => if i < 2 then .error ⟨"ETIMEDOUT", "socket", 0⟩ else .ok (7 : Nat))
        250 3 =
      ⟨.ok 7, 3, [250, 500]⟩ ∧
    withRetry (fun _ => (.error ⟨"AccessDenied", "forbidden", 403⟩ : Except JsError Nat))
        250 3 =
      ⟨.error ⟨"AccessDenied", "forbidden", 403⟩, 1, []⟩ := by
  constructor
  · have h := claim_C6.1 Nat
      (fun i => if i < 2 then .error ⟨"ETIMEDOUT", "socket", 0⟩ else .ok (7 : Nat))
      250 3 2 7 (by decide)
      (fun j hj => ⟨⟨"ETIMEDOUT", "socket", 0⟩, if_pos hj, by decide⟩)
      rfl
    exact h
  · exact claim_C6.2 Nat _ 250 3 ⟨"AccessDenied", "forbidden", 403⟩ rfl (by decide)

/-- Helper: every slice produced by the chunking loop holds at most 1000
keys, provided the fuel covers the key count. -/
theorem chunkKeysGo_length_le (fuel : Nat) :
    ∀ ks : List String, ks.length ≤ fuel →
      ∀ c ∈ chunkKeysGo fuel ks, c.length ≤ 1000 := by
  induction fuel with
  | zero =>
    intro ks hf c hc
    have hks : ks = [] := List.eq_nil_of_length_eq_zero (Nat.le_zero.mp hf)
    subst hks
    simp [chunkKeysGo] at hc
  | succ fuel ih =>
    intro ks hf c hc
    cases ks with
    | nil => simp [chunkKeysGo] at hc
    | cons a ks' =>
      simp only [chunkKeysGo] at hc
      rcases List.mem_cons.mp hc with h | h
      · subst h
        simp [List.length_take]
      · refine ih _ ?_ c h
        simp only [List.length_drop, List.length_cons] at *
        omega

/-- Helper: every key of the list lands in some slice. -/
theorem mem_chunkKeysGo (fuel : Nat) :
    ∀ ks : List String, ks.length ≤ fuel →
      ∀ k ∈ ks, ∃ c ∈ chunkKeysGo fuel ks, k ∈ c := by
  induction fuel with
  | zero =>
    intro ks hf k hk
    have hks : ks = [] := List.eq_nil_of_length_eq_zero (Nat.le_zero.mp hf)
    subst hks
    cases hk
  | succ fuel ih =>
    intro ks hf k hk
    cases ks with
    | nil => cases hk
    | cons a ks' =>
      rw [← List.take_append_drop 1000 (a :: ks')] at hk
      rcases List.mem_append.mp hk with h | h
      · exact ⟨(a :: ks').take 1000, by simp [chunkKeysGo], h⟩
      · obtain ⟨c, hc, hkc⟩ := ih ((a :: ks').drop 1000)
          (by simp only [List.length_drop, List.length_cons] at *; omega) k h
        exact ⟨c, by simp [chunkKeysGo]; right; exact hc, hkc⟩

/-- Claim C2: with a complete remote configuration, `syncToCosReal` issues
all stale-key delete batches before any upload, targets exactly the
platform-keyed primary prefix and the version-only legacy prefix, deletes
every existing object under either destination prefix in batches of at
most 1000 keys, and uploads every source file under both prefixes. -/
theorem claim_C2 (cfg : CosConfig) (assetsRoot legacyRoot platform version : String)
    (bucket files : List String) (hcfg : cosConfigOk cfg = true) :
    syncToCosReal cfg assetsRoot legacyRoot platform version bucket files =
      .ok (syncDeleteOps bucket (syncVersionPrefixes assetsRoot legacyRoot platform version) ++
           syncPutOps files (syncVersionPrefixes assetsRoot legacyRoot platform version)) ∧
    syncVersionPrefixes assetsRoot legacyRoot platform version =
      [assetsRoot ++ "/" ++ platform ++ "/" ++ version ++ "/",
       legacyRoot ++ "/" ++ version ++ "/"] ∧
    (∀ key ∈ bucket, ∀ p ∈ syncVersionPrefixes assetsRoot legacyRoot platform version,
      jsStartsWith key p = true →
      ∃ batch, CosOp.deleteBatch batch ∈
          syncDeleteOps bucket (syncVersionPrefixes assetsRoot legacyRoot platform version) ∧
        key ∈ batch) ∧
    (∀ batch, CosOp.deleteBatch batch ∈
        syncDeleteOps bucket (syncVersionPrefixes assetsRoot legacyRoot platform version) →
      batch.length ≤ 1000) ∧
    (∀ rel ∈ files, ∀ p ∈ syncVersionPrefixes assetsRoot legacyRoot platform version,
      CosOp.putObject (p ++ rel) ∈
        syncPutOps files (syncVersionPrefixes assetsRoot legacyRoot platform version)) ∧
    (∀ batch, CosOp.deleteBatch batch ∉
        syncPutOps files (syncVersionPrefixes assetsRoot legacyRoot platform version)) := by
  refine ⟨by simp [syncToCosReal, hcfg], rfl, ?_, ?_, ?_, ?_⟩
  · intro key hkey p hp hpfx
    have hmem : key ∈ listAllKeysBelow bucket p :=
      List.mem_filter.mpr ⟨hkey, hpfx⟩
    obtain ⟨c, hc, hkc⟩ :=
      mem_chunkKeysGo (listAllKeysBelow bucket p).length _ le_rfl key hmem
    refine ⟨c, ?_, hkc⟩
    unfold syncDeleteOps
    exact List.mem_flatten.mpr
      ⟨(chunkKeys (listAllKeysBelow bucket p)).map CosOp.deleteBatch,
       List.mem_map_of_mem _ hp, List.mem_map_of_mem _ hc⟩
  · intro batch hbatch
    unfold syncDeleteOps at hbatch
    obtain ⟨l, hl, hbl⟩ := List.mem_flatten.mp hbatch
    obtain ⟨p, hp, rfl⟩ := List.mem_map.mp hl
    obtain ⟨c, hc, hcb⟩ := List.mem_map.mp hbl
    cases hcb
    exact chunkKeysGo_length_le _ _ le_rfl _ hc
  · intro rel hrel p hp
    unfold syncPutOps
    exact List.mem_flatten.mpr
      ⟨files.map (fun r => CosOp.putObject (p ++ r)),
       List.mem_map_of_mem _ hp, List.mem_map_of_mem _ hrel⟩
  · intro batch hbatch
    unfold syncPutOps at hbatch
    obtain ⟨l, hl, hbl⟩ := List.mem_flatten.mp hbatch
    obtain ⟨p, hp, rfl⟩ := List.mem_map.mp hl
    obtain ⟨r, hr, hrb⟩ := List.mem_map.mp hbl
    cases hrb

/-- Claim C2, witness at a two-key bucket and a one-file bundle. -/
theorem claim_C2_witness :
    cosConfigOk ⟨"id", "key", "bucket", "region"⟩ = true ∧
    syncToCosReal ⟨"id", "key", "bucket", "region"⟩ "assets" "legacy" "wxmini" "100"
        ["assets/wxmini/100/stale.txt", "other/x"] ["config.json"] =
      .ok (syncDeleteOps ["assets/wxmini/100/stale.txt", "other/x"]
             (syncVersionPrefixes "assets" "legacy" "wxmini" "100") ++
           syncPutOps ["config.json"]
             (syncVersionPrefixes "assets" "legacy" "wxmini" "100")) :=
  ⟨by decide,
   (claim_C2 ⟨"id", "key", "bucket", "region"⟩ "assets" "legacy" "wxmini" "100"
      ["assets/wxmini/100/stale.txt", "other/x"] ["config.json"] (by decide)).1⟩

/-- Helper: when every attempt conflicts, the acquisition loop times out
after sleeping the fixed delay once per attempt. -/
theorem acquireLoop_all_eexist (tryOpen : Nat → LockAttempt) (delay : Nat) :
    ∀ (fuel i : Nat), (∀ a, i ≤ a → a < i + fuel → tryOpen a = .eexist) →
      acquireLoop tryOpen delay i fuel = (.timedOut, List.replicate fuel delay) := by
  intro fuel
  induction fuel with
  | zero => intro i _; simp [acquireLoop]
  | succ fuel ih =>
    intro i h
    have h0 : tryOpen i = .eexist := h i le_rfl (by omega)
    have hrest := ih (i + 1) (fun a ha hb => h a (by omega) (by omega))
    simp [acquireLoop, h0, hrest, List.replicate_succ]

/-- Claim C8: when the sentinel lock file conflicts on every attempt of the
bounded acquisition loop, `applyVersion` fails with the `LOCK_BUSY` error
after sleeping the fixed 100 millisecond delay 60 times; a missing target
version instead fails with `VERSION_NOT_FOUND`, a distinct error code. -/
theorem claim_C8 (tryOpen : Nat → LockAttempt) (available : List String)
    (state : StateDoc) (version action now : String) :
    ((∀ a, a < 60 → tryOpen a = .eexist) →
      applyVersion tryOpen available state version action now = .error lockBusyError ∧
      acquireLoop tryOpen 100 0 60 = (.timedOut, List.replicate 60 100)) ∧
    (tryOpen 0 = .ok → available.contains version = false →
      applyVersion tryOpen available state version action now = .error versionNotFoundError) ∧
    lockBusyError.code ≠ versionNotFoundError.code := by
  refine ⟨?_, ?_, by decide⟩
  · intro h
    have hacq : acquireLoop tryOpen 100 0 60 = (.timedOut, List.replicate 60 100) :=
      acquireLoop_all_eexist tryOpen 100 60 0 (fun a _ ha => h a (by omega))
    refine ⟨?_, hacq⟩
    unfold applyVersion withFileLock
    rw [hacq]
    rfl
  · intro hlock havail
    unfold applyVersion withFileLock
    rw [show (60 : Nat) = 59 + 1 from rfl]
    simp only [acquireLoop, hlock]
    rw [if_neg (by simpa using havail)]
    exact congrArg Except.error (if_neg (by decide))

/-- Claim C8, witness: a permanently held lock yields `LOCK_BUSY`; an
absent version with a free lock yields `VERSION_NOT_FOUND`. -/
theorem claim_C8_witness :
    (∀ a, a < 60 → (fun _ : Nat => LockAttempt.eexist) a = LockAttempt.eexist) ∧
    applyVersion (fun _ => LockAttempt.eexist) ["100"] defaultStateDoc "100" "publish" "t" =
      .error lockBusyError ∧
    applyVersion (fun _ => LockAttempt.ok) [] defaultStateDoc "100" "publish" "t" =
      .error versionNotFoundError :=
  ⟨fun _ _ => rfl,
   ((claim_C8 (fun _ => LockAttempt.eexist) ["100"] defaultStateDoc "100" "publish" "t").1
      (fun _ _ => rfl)).1,
   (claim_C8 (fun _ => LockAttempt.ok) [] defaultStateDoc "100" "publish" "t").2.1 rfl rfl⟩

end Pulzz
